import Mathlib

/-!
Verification of the spatial table-reconstruction core of PENSION-BOT
(`src/app.py`).  The Python functions `clean_num`, `fix_table_e_shifts`,
`build_table_e`, `find_total_deposits_table_b`, `cross_validate` and
`extract_section` are shallowly embedded below.  Python floats are modelled
as exact rationals (`ℚ`); the float literal `0.01` is modelled as `1/100`;
`None` / missing values are modelled with `Option`.  All definitions are
executable so that concrete runs of the code can be checked by `decide`.
-/

/- ── Generic string helpers (Python `in`, `strip`, split) ────────────── -/

/-- Is `needle` a prefix of `hay`?  (Both as character lists.) -/
def charsStarts : List Char → List Char → Bool
  | _, [] => true
  | [], _ :: _ => false
  | h :: hs, n :: ns => h = n && charsStarts hs ns

/-- Python substring test `needle in hay` on character lists. -/
def charsHas : List Char → List Char → Bool
  | [], needle => charsStarts [] needle
  | h :: t, needle => charsStarts (h :: t) needle || charsHas t needle

/-- Python substring test `sub in s` on strings. -/
def strHas (s sub : String) : Bool := charsHas s.data sub.data

/-- ASCII whitespace recognised by Python's `str.strip`. -/
def isPySpace (c : Char) : Bool :=
  c = ' ' || c = '\t' || c = '\n' || c = '\r' || c = '\x0b' || c = '\x0c'

/-- Python `str.strip()`.  The source strips all Unicode whitespace; this
model restricts to ASCII whitespace (the only kind the judged inputs
contain) — e.g. a trailing NBSP is not stripped here. -/
def pyStrip (cs : List Char) : List Char :=
  ((cs.dropWhile isPySpace).reverse.dropWhile isPySpace).reverse

/- ── Python `float(s)` on strings over the alphabet {digits, '.', '-'} ── -/

/-- Value of a decimal digit string (empty list counts as 0). -/
def digitsToNat (cs : List Char) : Nat :=
  cs.foldl (fun n c => 10 * n + (c.toNat - 48)) 0

/-- Unsigned part of Python's float grammar: `digits+ ['.' digits*]` or
`'.' digits+`.  Returns `none` on anything else.  The value
`int + frac / 10^len` is built as the single normalized fraction
`(int * 10^len + frac) / 10^len` so that it is kernel-computable. -/
def parseMantissa (cs : List Char) : Option ℚ :=
  let intp := cs.takeWhile Char.isDigit
  let rest := cs.dropWhile Char.isDigit
  match rest with
  | [] => if intp = [] then none else some (mkRat (digitsToNat intp) 1)
  | '.' :: frac =>
      if frac.all Char.isDigit && (!intp.isEmpty || !frac.isEmpty) then
        some (mkRat (digitsToNat intp * 10 ^ frac.length + digitsToNat frac) (10 ^ frac.length))
      else none
  | _ => none

/-- Python `float(s)` restricted to the strings `clean_num` can produce
(only digits, `.` and `-` survive its final filter), with the accepted
value kept as the exact rational of the decimal literal.  Python rounds
this value to the nearest IEEE double and saturates to ±inf at overflow;
the saturation is applied by `pyFloatSat`/`cleanNumOverflow` below, while
the rational-valued `clean_num` is the finite (sub-overflow) restriction. -/
def pyFloat (cs : List Char) : Option ℚ :=
  match cs with
  | '-' :: rest => (parseMantissa rest).map (fun q => -q)
  | _ => parseMantissa cs

/- ── clean_num (src/app.py lines 232-274) ────────────────────────────── -/

/-- The sentinel strings rejected outright by `clean_num`. -/
def cleanNumSentinels : List (List Char) :=
  ["", "nan", "-", "–", ".", "N/A", "n/a"].map String.data

/-- Body of `clean_num` on an already-stringified value.  The source's
final filter regex `\d` also keeps non-ASCII Unicode digits; the model
restricts to ASCII digits (the only kind the judged inputs contain). -/
def cleanNumChars (cs : List Char) : Option ℚ :=
  let s1 := pyStrip cs
  if s1 ∈ cleanNumSentinels then none else
  let s2 := s1.filter (fun c => c != ',')
  let s3 := if s2.head? = some '(' && s2.getLast? = some ')' then
              '-' :: (s2.drop 1).dropLast
            else s2
  let s4 := if s3.getLast? = some '-' || s3.getLast? = some '–' then
              '-' :: s3.dropLast
            else s3
  let s5 := s4.map (fun c => if c = '–' then '-' else c)
  let s6 := s5.filter (fun c => c.isDigit || c = '.' || c = '-')
  if s6 = [] || s6 = ['-'] || s6 = ['.'] then none
  else pyFloat s6

/-- `clean_num` from `src/app.py`: `None` propagates, a string is cleaned;
the final `try: float(s) except ValueError: None` is the `pyFloat` model. -/
def clean_num (value : Option String) : Option ℚ :=
  match value with
  | none => none
  | some v => cleanNumChars v.data

/- ── Claim theorems: C1, C10 ─────────────────────────────────────────── -/

/-- C1: the numeric normalizer `clean_num` maps each representative format
to its stated signed value — "1,234.56" to 1234.56 and each of "500-",
"-500", "(500)", "500–" to -500.0 — and each junk input in
{"", "-", ".", "n/a"} to the absent value. -/
theorem clean_num_representative_formats :
    clean_num (some "1,234.56") = some (1234.56 : ℚ) ∧
    clean_num (some "500-") = some (-500 : ℚ) ∧
    clean_num (some "-500") = some (-500 : ℚ) ∧
    clean_num (some "(500)") = some (-500 : ℚ) ∧
    clean_num (some "500–") = some (-500 : ℚ) ∧
    clean_num (some "") = none ∧
    clean_num (some "-") = none ∧
    clean_num (some ".") = none ∧
    clean_num (some "n/a") = none := by
  refine ⟨?_, by decide, by decide, by decide, by decide,
    by decide, by decide, by decide, by decide⟩
  have h : clean_num (some "1,234.56") = some (mkRat 123456 100) := by decide
  rw [h]
  norm_num [Rat.mkRat_eq_div]

/- ── Table E rows and the "shift fix" heuristic (src/app.py 281-372) ──── -/

/-- A raw `table_e` row as delivered by the upstream JSON extraction:
each cell is either absent (`None`/missing key) or a string. -/
structure RawRowE where
  month : Option String
  salary : Option String
  employee : Option String
  employer : Option String
  severance : Option String
  total : Option String
  deriving DecidableEq

/-- A `table_e` row after `fix_table_e_shifts`: `month` is passed through,
every numeric cell is the `clean_num` of a cell (absent = `None`/NaN). -/
structure RowE where
  month : Option String
  salary : Option ℚ
  employee : Option ℚ
  employer : Option ℚ
  severance : Option ℚ
  total : Option ℚ
  deriving DecidableEq

/-- Python `max(l)` on a list of floats.  The `[]` branch is unreachable in
`fixRowECore` (guarded by the `numeric_vals` emptiness check), where Python
would raise. -/
def pyListMax (l : List ℚ) : ℚ :=
  match l with
  | [] => 0
  | x :: xs => xs.foldl max x

/-- The `for i, v in enumerate(raw_slots)` scan of `fix_table_e_shifts`:
first index whose (optional) value equals `some m`. -/
def findFirstSlot (slots : List (Option ℚ)) (m : ℚ) : Option Nat :=
  match slots with
  | [] => none
  | v :: rest => if v = some m then some 0 else (findFirstSlot rest m).map (· + 1)

/-- Per-row body of the `for row in rows` loop of `fix_table_e_shifts`,
after the six `clean_num`/`get` reads.  `rotated = raw_slots[-shift:] +
raw_slots[:-shift] if shift else raw_slots` is the Python rotation. -/
def fixRowECore (month : Option String)
    (salary employee employer severance total : Option ℚ) : RowE :=
  let numeric_vals := [employee, employer, severance, total].filterMap id
  if numeric_vals = [] then
    ⟨month, salary, employee, employer, severance, total⟩
  else
    let max_val := pyListMax numeric_vals
    if total = some max_val then
      ⟨month, salary, employee, employer, severance, total⟩
    else
      let raw_slots := [employee, employer, severance, total]
      match findFirstSlot raw_slots max_val with
      | none => ⟨month, salary, employee, employer, severance, total⟩
      | some max_idx =>
        let shift := 3 - max_idx
        let rotated := if shift = 0 then raw_slots
          else raw_slots.drop (raw_slots.length - shift) ++
               raw_slots.take (raw_slots.length - shift)
        ⟨month, salary, rotated.getD 0 none, rotated.getD 1 none,
          rotated.getD 2 none, rotated.getD 3 none⟩

/-- One iteration of `fix_table_e_shifts` on a raw row (the repeated
`clean_num(row.get(...))` reads agree because `clean_num` is pure). -/
def fixRowE (row : RawRowE) : RowE :=
  fixRowECore row.month (clean_num row.salary) (clean_num row.employee)
    (clean_num row.employer) (clean_num row.severance) (clean_num row.total)

/-- `fix_table_e_shifts` from `src/app.py`: the `fixed` accumulator loop is
a map of the per-row fix. -/
def fix_table_e_shifts (rows : List RawRowE) : List RowE :=
  rows.map fixRowE

/-- `build_table_e` from `src/app.py`: runs `fix_table_e_shifts` and then
`pd.to_numeric(..., errors="coerce")` on the numeric columns, which is the
identity on the already-cleaned optional values (`None` becomes NaN, i.e.
stays absent). -/
def build_table_e (rows : List RawRowE) : List RowE :=
  fix_table_e_shifts rows

/- ── Helper lemmas for the shift-fix claims ──────────────────────────── -/

theorem foldlMax_eq {d : ℚ} :
    ∀ (l : List ℚ) (x : ℚ), x ≤ d → (∀ y ∈ l, y ≤ d) → (d = x ∨ d ∈ l) →
      l.foldl max x = d := by
  intro l
  induction l with
  | nil =>
    intro x hx _ hm
    rcases hm with h | h
    · simpa using h.symm
    · cases h
  | cons y ys ih =>
    intro x hx hy hm
    have hyd : y ≤ d := hy y (by simp)
    have hys : ∀ z ∈ ys, z ≤ d := fun z hz => hy z (by simp [hz])
    have hx' : max x y ≤ d := max_le hx hyd
    have hm' : d = max x y ∨ d ∈ ys := by
      rcases hm with h | h
      · left
        rw [h] at hyd ⊢
        exact (max_eq_left hyd).symm
      · rcases List.mem_cons.1 h with h' | h'
        · left
          rw [h'] at hx ⊢
          exact (max_eq_right hx).symm
        · right; exact h'
    simpa using ih (max x y) hx' hys hm'

theorem pyListMax_eq (l : List ℚ) (d : ℚ) (hd : d ∈ l)
    (hub : ∀ y ∈ l, y ≤ d) : pyListMax l = d := by
  cases l with
  | nil => cases hd
  | cons x xs =>
    have hx : x ≤ d := hub x (by simp)
    have hm : d = x ∨ d ∈ xs := by
      rcases List.mem_cons.1 hd with h | h
      · left; exact h
      · right; exact h
    exact foldlMax_eq xs x hx (fun y hy => hub y (by simp [hy])) hm

theorem msRotOne {α : Type} (x y z w : α) :
    ({y, z, w, x} : Multiset α) = {x, y, z, w} := by
  simp only [Multiset.insert_eq_cons, ← Multiset.cons_zero]
  rw [Multiset.cons_swap w x, Multiset.cons_swap z x, Multiset.cons_swap y x]

theorem msRotTwo {α : Type} (x y z w : α) :
    ({z, w, x, y} : Multiset α) = {x, y, z, w} := by
  simp only [Multiset.insert_eq_cons, ← Multiset.cons_zero]
  rw [Multiset.cons_swap w x, Multiset.cons_swap z x,
    Multiset.cons_swap w y, Multiset.cons_swap z y]

theorem msRotThree {α : Type} (x y z w : α) :
    ({w, x, y, z} : Multiset α) = {x, y, z, w} := by
  simp only [Multiset.insert_eq_cons, ← Multiset.cons_zero]
  rw [Multiset.cons_swap w x, Multiset.cons_swap w y, Multiset.cons_swap w z]

theorem fixRowECore_all_some (month : Option String) (sal : Option ℚ)
    (a b c d : ℚ) :
    (fixRowECore month sal (some a) (some b) (some c) (some d)).total =
        some (max (max a b) (max c d)) ∧
      ({(fixRowECore month sal (some a) (some b) (some c) (some d)).employee,
        (fixRowECore month sal (some a) (some b) (some c) (some d)).employer,
        (fixRowECore month sal (some a) (some b) (some c) (some d)).severance,
        (fixRowECore month sal (some a) (some b) (some c) (some d)).total} :
          Multiset (Option ℚ)) = {some a, some b, some c, some d} := by
  have hM : pyListMax ([some a, some b, some c, some d].filterMap id) =
      max (max a b) (max c d) := by
    simp [pyListMax]
    rw [max_assoc]
  set M := max (max a b) (max c d) with hMdef
  by_cases hd : d = M
  · have heq : fixRowECore month sal (some a) (some b) (some c) (some d) =
        ⟨month, sal, some a, some b, some c, some d⟩ := by
      unfold fixRowECore
      simp only [hM]
      simp [← hd]
    rw [heq]
    exact ⟨by simp [hd], rfl⟩
  · have hmem : M = a ∨ M = b ∨ M = c := by
      rcases max_choice (max a b) (max c d) with h | h
      · rcases max_choice a b with h2 | h2
        · exact Or.inl (h.trans h2)
        · exact Or.inr (Or.inl (h.trans h2))
      · rcases max_choice c d with h2 | h2
        · exact Or.inr (Or.inr (h.trans h2))
        · exact absurd (h.trans h2).symm hd
    by_cases ha : a = M
    · have heq : fixRowECore month sal (some a) (some b) (some c) (some d) =
          ⟨month, sal, some b, some c, some d, some a⟩ := by
        unfold fixRowECore
        simp only [hM]
        simp [findFirstSlot, ha, hd]
      rw [heq]
      exact ⟨by simp [ha], msRotOne _ _ _ _⟩
    · by_cases hb : b = M
      · have heq : fixRowECore month sal (some a) (some b) (some c) (some d) =
            ⟨month, sal, some c, some d, some a, some b⟩ := by
          unfold fixRowECore
          simp only [hM]
          simp [findFirstSlot, ha, hb, hd]
        rw [heq]
        exact ⟨by simp [hb], msRotTwo _ _ _ _⟩
      · have hc : c = M := by tauto
        have heq : fixRowECore month sal (some a) (some b) (some c) (some d) =
            ⟨month, sal, some d, some a, some b, some c⟩ := by
          unfold fixRowECore
          simp only [hM]
          simp [findFirstSlot, ha, hb, hc, hd]
        rw [heq]
        exact ⟨by simp [hc], msRotThree _ _ _ _⟩

theorem fixRowECore_total_max (m : Option String) (sal e r sv : Option ℚ)
    (d : ℚ) (he : e.getD d ≤ d) (hr : r.getD d ≤ d) (hsv : sv.getD d ≤ d) :
    fixRowECore m sal e r sv (some d) = ⟨m, sal, e, r, sv, some d⟩ := by
  have hmem : d ∈ [e, r, sv, some d].filterMap id := by simp
  have hub : ∀ y ∈ [e, r, sv, some d].filterMap id, y ≤ d := by
    intro y hy
    rcases List.mem_filterMap.1 hy with ⟨o, ho, hid⟩
    have hoy : o = some y := hid
    rw [hoy] at ho
    simp only [List.mem_cons, List.mem_singleton] at ho
    rcases ho with h | h | h | h | h
    · rw [← h] at he; simpa using he
    · rw [← h] at hr; simpa using hr
    · rw [← h] at hsv; simpa using hsv
    · exact le_of_eq (Option.some.inj h)
    · cases h
  have hmax : pyListMax ([e, r, sv, some d].filterMap id) = d :=
    pyListMax_eq _ d hmem hub
  have hne : ([e, r, sv, some d].filterMap id) ≠ [] := List.ne_nil_of_mem hmem
  unfold fixRowECore
  simp [hmax, hne]

theorem fixRowE_salary (row : RawRowE) :
    (fixRowE row).salary = clean_num row.salary := by
  unfold fixRowE fixRowECore
  dsimp only
  (repeat' split) <;> rfl

/- ── Claim theorems: C2, C3, C4, C5 ──────────────────────────────────── -/

/-- C2: for every row whose four contribution cells normalize to values
`a b c d`, the row produced for it by `fix_table_e_shifts` carries the
maximum of the four in its `total` slot, and the multiset of the four
output field values equals the input multiset. -/
theorem fix_table_e_shifts_max_to_total :
    ∀ (pre post : List RawRowE) (row : RawRowE) (a b c d : ℚ),
      clean_num row.employee = some a → clean_num row.employer = some b →
      clean_num row.severance = some c → clean_num row.total = some d →
      ∃ out : RowE,
        fix_table_e_shifts (pre ++ row :: post) =
          fix_table_e_shifts pre ++ out :: fix_table_e_shifts post ∧
        out.total = some (max (max a b) (max c d)) ∧
        ({out.employee, out.employer, out.severance, out.total} :
            Multiset (Option ℚ)) = {some a, some b, some c, some d} := by
  intro pre post row a b c d ha hb hc hd
  refine ⟨fixRowE row, ?_, ?_⟩
  · simp [fix_table_e_shifts]
  · have h := fixRowECore_all_some row.month (clean_num row.salary) a b c d
    unfold fixRowE
    rw [ha, hb, hc, hd]
    exact h

/-- C2 witness: the shift-correction invariant at the concrete row
(employee 1000, employer 1500, severance 3000, total 2500). -/
theorem fix_table_e_shifts_max_to_total_witness :
    ∃ out : RowE,
      fix_table_e_shifts ([] ++
          (⟨some "04/2024", some "7000", some "1000", some "1500",
            some "3000", some "2500"⟩ : RawRowE) :: []) =
        fix_table_e_shifts [] ++ out :: fix_table_e_shifts [] ∧
      out.total = some (max (max 1000 1500) (max 3000 2500)) ∧
      ({out.employee, out.employer, out.severance, out.total} :
          Multiset (Option ℚ)) =
        {some 1000, some 1500, some 3000, some 2500} :=
  fix_table_e_shifts_max_to_total [] []
    ⟨some "04/2024", some "7000", some "1000", some "1500",
      some "3000", some "2500"⟩
    1000 1500 3000 2500 (by decide) (by decide) (by decide) (by decide)

/-- The schema-E summary line of the spec's scenario: fields observed in
order employee=1000, employer=1500, severance=3000, total=2500. -/
def rowScenarioE : RawRowE :=
  ⟨some "03/2024", none, some "1000", some "1500", some "3000", some "2500"⟩

/-- What the code actually produces for `rowScenarioE`: the four values are
cyclically rotated right by one slot, landing the maximum in `total`. -/
def rowScenarioEOut : RowE :=
  ⟨some "03/2024", none, some 2500, some 1000, some 1500, some 3000⟩

/-- The output the claim asserts for `rowScenarioE` (it keeps the linear
order of the three non-maximal values). -/
def rowScenarioEClaimed : RowE :=
  ⟨some "03/2024", none, some 1000, some 1500, some 2500, some 3000⟩

/-- C3 counterexample: on the scenario row, `fix_table_e_shifts` does not
produce `{employee:1000, employer:1500, severance:2500, total:3000}`; its
output's employee slot is 2500, not 1000. -/
theorem fix_table_e_scenario_counterexample :
    fix_table_e_shifts [rowScenarioE] ≠ [rowScenarioEClaimed] ∧
    (fix_table_e_shifts [rowScenarioE]).map RowE.employee = [some 2500] := by
  exact ⟨by decide, by decide⟩

/-- C3 amended: the scenario row is corrected to
`{employee:2500, employer:1000, severance:1500, total:3000}` — a cyclic
right-rotation by one slot that lands the maximum 3000 in the total slot
while the other three values keep their cyclic (not linear) order. -/
theorem fix_table_e_scenario_amended :
    fix_table_e_shifts [rowScenarioE] = [rowScenarioEOut] := by
  decide

/-- A detail (non-summary) row of table E whose maximum sits in the
employee column. -/
def detailRowE : RawRowE :=
  ⟨some "01/2024", some "5000", some "3000", some "1000", some "1500",
    some "2000"⟩

/-- C4 counterexample: `build_table_e` rotates this detail row too — its
output employee field (1000) is not the normalization of its own employee
cell (3000), so the heuristic is not restricted to the summary row. -/
theorem shift_fix_applied_to_detail_rows_counterexample :
    build_table_e [detailRowE] =
      [⟨some "01/2024", some 5000, some 1000, some 1500, some 2000,
        some 3000⟩] ∧
    (build_table_e [detailRowE]).map RowE.employee ≠
      [clean_num detailRowE.employee] := by
  exact ⟨by decide, by decide⟩

/-- C4 amended: `build_table_e` applies the shift heuristic to every row
(summary or not); a row passes through with all four contribution fields
equal to the normalization of its own cells exactly in the benign case,
e.g. whenever its own total cell already holds the maximum value. -/
theorem build_table_e_passthrough_when_total_max :
    ∀ (pre post : List RawRowE) (row : RawRowE) (d : ℚ),
      clean_num row.total = some d →
      (clean_num row.employee).getD d ≤ d →
      (clean_num row.employer).getD d ≤ d →
      (clean_num row.severance).getD d ≤ d →
      build_table_e (pre ++ row :: post) =
        build_table_e pre ++
          (⟨row.month, clean_num row.salary, clean_num row.employee,
            clean_num row.employer, clean_num row.severance,
            clean_num row.total⟩ : RowE) :: build_table_e post := by
  intro pre post row d ht he hr hsv
  have hfix : fixRowE row =
      ⟨row.month, clean_num row.salary, clean_num row.employee,
        clean_num row.employer, clean_num row.severance,
        clean_num row.total⟩ := by
    unfold fixRowE
    rw [ht]
    exact fixRowECore_total_max _ _ _ _ _ d he hr hsv
  simp [build_table_e, fix_table_e_shifts, hfix]

/-- C4 witness: a detail row whose total cell holds the maximum passes
through `build_table_e` with every field normalized in place. -/
theorem build_table_e_passthrough_when_total_max_witness :
    build_table_e ([] ++
        (⟨some "02/2024", some "4000", some "100", some "200", some "300",
          some "900"⟩ : RawRowE) :: []) =
      build_table_e [] ++
        (⟨(⟨some "02/2024", some "4000", some "100", some "200", some "300",
            some "900"⟩ : RawRowE).month,
          clean_num (some "4000"), clean_num (some "100"),
          clean_num (some "200"), clean_num (some "300"),
          clean_num (some "900")⟩ : RowE) :: build_table_e [] :=
  build_table_e_passthrough_when_total_max [] []
    ⟨some "02/2024", some "4000", some "100", some "200", some "300",
      some "900"⟩
    900 (by decide) (by decide) (by decide) (by decide)

/-- Two detail rows (salaries 100 and 200) followed by a summary row whose
salary cell reads 999. -/
def sumRowsE : List RawRowE :=
  [⟨some "01/2024", some "100", some "10", some "20", some "30", some "60"⟩,
   ⟨some "02/2024", some "200", some "10", some "20", some "30", some "60"⟩,
   ⟨some "סהכ", some "999", some "20", some "40", some "60", some "120"⟩]

/-- C5 counterexample: after `build_table_e`, the last (summary) row's
salary field is still 999, the value of its own salary cell, and not
100 + 200, the sum of the detail rows' salaries — no recomputation
happens. -/
theorem summary_salary_not_recomputed_counterexample :
    (build_table_e sumRowsE).map RowE.salary = [some 100, some 200, some 999] ∧
    (999 : ℚ) ≠ 100 + 200 := by
  exact ⟨by decide, by norm_num⟩

/-- C5 amended: `build_table_e` takes every row's salary field — the
summary row's included — from that row's own salary cell via `clean_num`;
no salary is ever recomputed from other rows. -/
theorem build_table_e_salary_passthrough :
    ∀ rows : List RawRowE,
      (build_table_e rows).map RowE.salary =
        rows.map fun r => clean_num r.salary := by
  intro rows
  induction rows with
  | nil => rfl
  | cons r rs ih =>
    simp only [build_table_e, fix_table_e_shifts, List.map_cons] at ih ⊢
    rw [fixRowE_salary, ih]

/- ── Kernel-computable rational arithmetic (Python float ops) ────────── -/

/-- Addition of exact rationals, written with `mkRat` so it is
kernel-computable (the library `+` on `ℚ` is `@[irreducible]`). -/
def qAdd (a b : ℚ) : ℚ := mkRat (a.num * b.den + b.num * a.den) (a.den * b.den)

/-- Subtraction of exact rationals via `mkRat` (kernel-computable). -/
def qSub (a b : ℚ) : ℚ := mkRat (a.num * b.den - b.num * a.den) (a.den * b.den)

/-- Multiplication of exact rationals via `mkRat` (kernel-computable). -/
def qMul (a b : ℚ) : ℚ := mkRat (a.num * b.num) (a.den * b.den)

theorem qAdd_eq (a b : ℚ) : qAdd a b = a + b := by
  have ha : ((a.den : ℚ)) ≠ 0 := by exact_mod_cast a.den_nz
  have hb : ((b.den : ℚ)) ≠ 0 := by exact_mod_cast b.den_nz
  have h2 : a + b = (a.num : ℚ) / a.den + (b.num : ℚ) / b.den := by
    rw [Rat.num_div_den, Rat.num_div_den]
  unfold qAdd
  rw [Rat.mkRat_eq_div, h2, div_add_div _ _ ha hb]
  push_cast
  ring_nf

theorem qSub_eq (a b : ℚ) : qSub a b = a - b := by
  have ha : ((a.den : ℚ)) ≠ 0 := by exact_mod_cast a.den_nz
  have hb : ((b.den : ℚ)) ≠ 0 := by exact_mod_cast b.den_nz
  have h2 : a - b = (a.num : ℚ) / a.den - (b.num : ℚ) / b.den := by
    rw [Rat.num_div_den, Rat.num_div_den]
  unfold qSub
  rw [Rat.mkRat_eq_div, h2, div_sub_div _ _ ha hb]
  push_cast
  ring_nf

theorem qMul_eq (a b : ℚ) : qMul a b = a * b := by
  have h2 : a * b = (a.num : ℚ) / a.den * ((b.num : ℚ) / b.den) := by
    rw [Rat.num_div_den, Rat.num_div_den]
  unfold qMul
  rw [Rat.mkRat_eq_div, h2, div_mul_div_comm]
  push_cast
  ring_nf

/- ── Table B rows and cross-validation (src/app.py 379-427) ──────────── -/

/-- A `table_b` row after `build_table_b`: the description string and the
`clean_num`-normalized amount (`none` both for `None` and NaN). -/
structure RowB where
  description : String
  amount : Option ℚ
  deriving DecidableEq

/-- `_DEPOSIT_KEYWORDS` from `src/app.py`. -/
def depositKeywords : List String :=
  ["הפקדות", "הפקדה", "deposits", "deposit", "קרן", "כולל"]

/-- `find_total_deposits_table_b` from `src/app.py`: the amount of the
first row whose description contains a deposit keyword and whose amount is
numeric.  In the source the amount column was already normalized by
`build_table_b` and the function re-applies `clean_num` to the stored
float; this rational-valued model treats that round-trip as the identity
on stored values and `None` on NaN, which is exact on the plain `str()`
formatting range.  The fully faithful treatment — NaN/±inf cells and the
plain-range restriction made explicit — is `find_total_deposits_ieee`
below; this version is used where the reviewed instances stay finite and
plain-format. -/
def find_total_deposits_table_b (rows : List RowB) : Option ℚ :=
  match rows with
  | [] => none
  | row :: rest =>
    if depositKeywords.any (fun kw => strHas row.description kw) then
      match row.amount with
      | some v => some v
      | none => find_total_deposits_table_b rest
    else find_total_deposits_table_b rest

/-- pandas `Series.sum()` with its default `skipna=True` on a float column:
missing values are skipped, and an all-missing column sums to 0. -/
def pandas_sum (l : List (Option ℚ)) : ℚ :=
  l.foldl (fun acc x => match x with | none => acc | some v => qAdd acc v) 0

/-- The three outcomes `cross_validate` can display: `st.success` (match),
`st.warning` (mismatch) and the `st.info` cases (indeterminate). -/
inductive CVStatus where
  | matched
  | mismatch
  | indeterminate
  deriving DecidableEq

/-- The outcome record of `cross_validate`: the displayed status plus the
numbers shown in its messages. -/
structure CVOut where
  status : CVStatus
  b_value : Option ℚ
  e_value : Option ℚ
  delta : Option ℚ
  deriving DecidableEq

/-- `cross_validate` from `src/app.py`, in the rational (finite-float)
restriction: the `math.isnan(e_sum)` guard of the source can fire only
when the totals column holds offsetting infinities, which cannot arise
among exact rationals, so it is omitted here.  The float-aware model
`cross_validate_ieee` below keeps that guard; `cross_validate_ieee_agrees`
proves the two agree on finite plain-format tables.  The float literal
`0.01` is the exact `mkRat 1 100`. -/
def cross_validate (table_b : List RowB) (table_e : List RowE) : CVOut :=
  match find_total_deposits_table_b table_b with
  | none => ⟨.indeterminate, none, none, none⟩
  | some b_total =>
    if table_e.isEmpty then ⟨.indeterminate, some b_total, none, none⟩
    else
      let e_sum := pandas_sum (table_e.map RowE.total)
      let diff := |qSub b_total e_sum|
      let tolerance := max 1 (qMul |b_total| (mkRat 1 100))
      if diff ≤ tolerance then ⟨.matched, some b_total, some e_sum, some diff⟩
      else ⟨.mismatch, some b_total, some e_sum, some diff⟩

/-- Modelled from the spec: a validator whose `e_value` is "the summary
row's total field from schema E" (the summary row being the last row),
all other steps as in `cross_validate`.  This follows the spec's words and
exists only to be compared against the code's `cross_validate`. -/
def crossValidateSpecSummary (table_b : List RowB) (table_e : List RowE) :
    CVOut :=
  match find_total_deposits_table_b table_b with
  | none => ⟨.indeterminate, none, none, none⟩
  | some b_total =>
    match table_e.getLast? with
    | none => ⟨.indeterminate, some b_total, none, none⟩
    | some summaryRow =>
      match summaryRow.total with
      | none => ⟨.indeterminate, some b_total, none, none⟩
      | some e_val =>
        let diff := |qSub b_total e_val|
        let tolerance := max 1 (qMul |b_total| (mkRat 1 100))
        if diff ≤ tolerance then ⟨.matched, some b_total, some e_val, some diff⟩
        else ⟨.mismatch, some b_total, some e_val, some diff⟩

theorem pandas_sum_eq_sum (l : List (Option ℚ)) :
    pandas_sum l = (l.filterMap id).sum := by
  have h : ∀ (l : List (Option ℚ)) (acc : ℚ),
      l.foldl (fun acc x => match x with | none => acc | some v => qAdd acc v)
          acc = acc + (l.filterMap id).sum := by
    intro l
    induction l with
    | nil => intro acc; simp
    | cons x xs ih =>
      intro acc
      cases x with
      | none => simpa using ih acc
      | some v =>
        simp only [List.foldl_cons, List.filterMap_cons, id_eq, List.sum_cons]
        rw [ih (qAdd acc v), qAdd_eq]
        ring
  simpa using h l 0

/- ── Claim theorems: C6, C7, C8 ──────────────────────────────────────── -/

/-- A table-B row whose description carries a deposit keyword, with a given
amount. -/
def rowBDeposit (q : ℚ) : RowB := ⟨"סך הפקדות לקרן", some q⟩

/-- A table-E row carrying only a total value. -/
def rowETotal (q : ℚ) : RowE := ⟨none, none, none, none, none, some q⟩

/-- C6: `cross_validate` compares with an absolute tolerance of
`max(1.0, 1% of b_value)`; concretely, `b = 10000` against an E-side value
of 10050 is a match (difference 50, tolerance 100) and against 10500 a
mismatch. -/
theorem cross_validate_tolerance :
    (∀ (bt : List RowB) (et : List RowE) (b : ℚ),
        find_total_deposits_table_b bt = some b → et ≠ [] →
        ((cross_validate bt et).status = CVStatus.matched ↔
          |b - pandas_sum (et.map RowE.total)| ≤ max 1 (|b| * (1 / 100)))) ∧
    (cross_validate [rowBDeposit 10000] [rowETotal 10050]).status =
      CVStatus.matched ∧
    (cross_validate [rowBDeposit 10000] [rowETotal 10500]).status =
      CVStatus.mismatch := by
  refine ⟨?_, by decide, by decide⟩
  intro bt et b hb hne
  have hq : (mkRat 1 100 : ℚ) = 1 / 100 := by norm_num [Rat.mkRat_eq_div]
  have hisE : et.isEmpty = false := by
    cases et with
    | nil => exact absurd rfl hne
    | cons x xs => rfl
  unfold cross_validate
  rw [hb, hisE]
  simp only [Bool.false_eq_true, if_false, qSub_eq, qMul_eq, hq]
  split
  · next h => simpa using h
  · next h => simpa using h

/-- C6 witness: the tolerance characterization applied at the concrete
matching pair (b = 10000, E-side 10050). -/
theorem cross_validate_tolerance_witness :
    (cross_validate [rowBDeposit 10000] [rowETotal 10050]).status =
        CVStatus.matched ↔
      |(10000 : ℚ) - pandas_sum ([rowETotal 10050].map RowE.total)| ≤
        max 1 (|(10000 : ℚ)| * (1 / 100)) :=
  cross_validate_tolerance.1 [rowBDeposit 10000] [rowETotal 10050] 10000
    (by decide) (by decide)

/-- Two schema-E rows with totals 100 and 200; the last one plays the
summary row. -/
def rowsE7 : List RowE := [rowETotal 100, rowETotal 200]

/-- C7 counterexample: with B-deposit 300 and E-rows totalling 100 and 200,
`cross_validate` uses `e_value = 300` — the column sum — while the summary
(last) row's total field is 200; the code reports a match where the spec's
summary-row comparator reports a mismatch. -/
theorem cross_validate_evalue_counterexample :
    (cross_validate [rowBDeposit 300] rowsE7).e_value = some 300 ∧
    (rowsE7.getLast?).bind RowE.total = some 200 ∧
    (cross_validate [rowBDeposit 300] rowsE7).status = CVStatus.matched ∧
    (crossValidateSpecSummary [rowBDeposit 300] rowsE7).status =
      CVStatus.mismatch := by
  exact ⟨by decide, by decide, by decide, by decide⟩

/-- C7 amended: whenever the comparison is reached, `cross_validate`'s
`e_value` is the sum of the `total` column over all schema-E rows (missing
values skipped), not a single row's field. -/
theorem cross_validate_evalue_is_sum :
    ∀ (bt : List RowB) (et : List RowE) (b : ℚ),
      find_total_deposits_table_b bt = some b → et ≠ [] →
      (cross_validate bt et).e_value =
        some (((et.map RowE.total).filterMap id).sum) := by
  intro bt et b hb hne
  have hisE : et.isEmpty = false := by
    cases et with
    | nil => exact absurd rfl hne
    | cons x xs => rfl
  unfold cross_validate
  rw [hb, hisE]
  simp only [Bool.false_eq_true, if_false, pandas_sum_eq_sum]
  split <;> rfl

/-- C7 amended witness: the sum-based `e_value` at the concrete tables. -/
theorem cross_validate_evalue_is_sum_witness :
    (cross_validate [rowBDeposit 300] rowsE7).e_value =
      some (((rowsE7.map RowE.total).filterMap id).sum) :=
  cross_validate_evalue_is_sum [rowBDeposit 300] rowsE7 300
    (by decide) (by decide)

/- ── Section extraction by header keyword (src/app.py 155-191) ───────── -/

/-- `_SECTION_HEADERS` from `src/app.py` (the last entry is only an
end-boundary). -/
def sectionHeaders : List String :=
  ["תשלומים צפויים", "תנועות בקרן", "דמי ניהול", "מסלולי השקעה",
   "פירוט הפקדות", "פרטי סוכן"]

/-- Split a character list at every newline (keeping empty pieces). -/
def splitOnNl : List Char → List (List Char)
  | [] => [[]]
  | c :: rest =>
    if c = '\n' then [] :: splitOnNl rest
    else
      match splitOnNl rest with
      | [] => [[c]]
      | h :: t => (c :: h) :: t

/-- Python `str.splitlines()` restricted to `\n` terminators: empty text
has no lines, and a trailing newline produces no trailing empty line. -/
def pySplitlines (s : String) : List String :=
  match s.data with
  | [] => []
  | cs =>
    let parts := (splitOnNl cs).map String.mk
    if cs.getLast? = some '\n' then parts.dropLast else parts

/-- Python `"\n".join(lines)`. -/
def joinNl (lines : List String) : String :=
  String.mk (List.intercalate ['\n'] (lines.map String.data))

/-- Index of the first line satisfying a predicate (the `for i, line in
enumerate(lines)` scans of `extract_section`). -/
def firstIdxWhere (p : String → Bool) : List String → Option Nat
  | [] => none
  | l :: rest => if p l then some 0 else (firstIdxWhere p rest).map (· + 1)

/-- Does a line contain some section header other than the current
keyword?  (The inner `for header in _SECTION_HEADERS` test.) -/
def lineHasOtherHeader (kw line : String) : Bool :=
  sectionHeaders.any (fun h => (h != kw) && strHas line h)

/-- `extract_section` from `src/app.py`: the slice of `raw_text` from the
first line containing `section_keyword` up to the first later line
containing a different section header; the whole text if the keyword is
never found. -/
def extract_section (raw_text : String) (section_keyword : String) : String :=
  let lines := pySplitlines raw_text
  match firstIdxWhere (fun l => strHas l section_keyword) lines with
  | none => raw_text
  | some start_idx =>
    let end_idx :=
      match firstIdxWhere (lineHasOtherHeader section_keyword)
          (lines.drop (start_idx + 1)) with
      | none => lines.length
      | some j => start_idx + 1 + j
    joinNl ((lines.drop start_idx).take (end_idx - start_idx))

/- ── Claim theorems: C9 ──────────────────────────────────────────────── -/

/-- The schema-A anchor keyword. -/
def c9kw : String := "תשלומים צפויים"

/-- A line holding the anchor keyword in reversed character order only. -/
def c9line : String := String.mk c9kw.data.reverse

/-- A document whose middle line contains the anchor only reversed. -/
def c9raw : String := "xx\n" ++ c9line ++ "\nyy"

/-- C9 counterexample: the middle line of `c9raw` contains the anchor
keyword in reversed order (and not in natural order), yet `extract_section`
falls back to the full text — it does not fix the section start at that
line, so no reversed-order matching is attempted. -/
theorem extract_section_reversed_counterexample :
    strHas (String.mk c9line.data.reverse) c9kw = true ∧
    strHas c9line c9kw = false ∧
    extract_section c9raw c9kw = c9raw ∧
    pySplitlines c9raw = ["xx", c9line, "yy"] ∧
    c9raw ≠ joinNl [c9line, "yy"] := by
  refine ⟨by decide, by decide, by decide, by decide, by decide⟩

/-- C9 amended: anchor matching in `extract_section` is tried in natural
character order only — if no line contains the keyword as-is, the whole
text is returned as fallback, even if some line contains it reversed. -/
theorem extract_section_natural_only :
    ∀ (raw kw : String),
      (∀ line ∈ pySplitlines raw, strHas line kw = false) →
      extract_section raw kw = raw := by
  intro raw kw h
  have hfind : ∀ ls : List String, (∀ l ∈ ls, strHas l kw = false) →
      firstIdxWhere (fun l => strHas l kw) ls = none := by
    intro ls
    induction ls with
    | nil => intro _; rfl
    | cons x xs ih =>
      intro hx
      unfold firstIdxWhere
      rw [hx x (by simp), ih (fun l hl => hx l (by simp [hl]))]
      rfl
  unfold extract_section
  dsimp only
  rw [hfind (pySplitlines raw) h]

/-- C9 amended witness: a document whose middle line "ba" is the reversal
of the keyword "ab" falls back to the full text. -/
theorem extract_section_natural_only_witness :
    extract_section "xx\nba\nyy" "ab" = "xx\nba\nyy" :=
  extract_section_natural_only "xx\nba\nyy" "ab" (by decide)

/- ── IEEE-double specials: overflow, infinities and NaN ──────────────── -/

/-- The values a Python float variable can hold in this pipeline: a finite
value (kept exact), the two infinities, and NaN. -/
inductive PyFloat where
  | val (q : ℚ)
  | inf
  | ninf
  | nan
  deriving DecidableEq

/-- Is this float finite? -/
def PyFloat.isFinite : PyFloat → Bool
  | .val _ => true
  | _ => false

/-- The smallest magnitude at which IEEE-754 double rounding (to nearest,
ties to even) overflows: `2^1024 - 2^970`.  Exact values of magnitude at
least this round to ±inf; strictly smaller magnitudes round to a finite
double. -/
def dblOvf : ℚ := mkRat (Int.ofNat (2 ^ 1024 - 2 ^ 970)) 1

/-- Rounding of the exact parsed value into a Python float: saturation to
±inf at the double overflow bound (`float()` of a decimal literal never
raises and never yields NaN); finite results are kept exact. -/
def pyFloatSat (q : ℚ) : PyFloat :=
  if dblOvf ≤ q then .inf
  else if q ≤ -dblOvf then .ninf
  else .val q

/-- `clean_num` from `src/app.py` with the overflow behaviour of `float()`
retained: the same cleaning pipeline as `clean_num`, with the accepted
decimal value saturated to ±inf at the IEEE double overflow bound. -/
def cleanNumOverflow (value : Option String) : Option PyFloat :=
  match value with
  | none => none
  | some v => (cleanNumChars v.data).map pyFloatSat

/-- `cleanNumOverflow` is `clean_num` followed by the overflow saturation:
the two models share the whole cleaning pipeline. -/
theorem cleanNumOverflow_eq_sat :
    ∀ v : Option String, cleanNumOverflow v = (clean_num v).map pyFloatSat := by
  intro v
  cases v <;> rfl

/-- Python `a < b` on floats (any comparison with NaN is false). -/
def pyLtF : PyFloat → PyFloat → Bool
  | .nan, _ => false
  | _, .nan => false
  | .val a, .val b => decide (a < b)
  | .val _, .inf => true
  | .val _, .ninf => false
  | .inf, _ => false
  | .ninf, .ninf => false
  | .ninf, _ => true

/-- Python `a <= b` on floats (any comparison with NaN is false). -/
def pyLeF : PyFloat → PyFloat → Bool
  | .nan, _ => false
  | _, .nan => false
  | .val a, .val b => decide (a ≤ b)
  | .val _, .inf => true
  | .val _, .ninf => false
  | .inf, .inf => true
  | .inf, _ => false
  | .ninf, _ => true

/-- IEEE float addition on this domain (`inf + (-inf) = NaN`); finite
additions are kept exact. -/
def pyAddF : PyFloat → PyFloat → PyFloat
  | .nan, _ => .nan
  | _, .nan => .nan
  | .val a, .val b => .val (qAdd a b)
  | .inf, .ninf => .nan
  | .ninf, .inf => .nan
  | .inf, _ => .inf
  | _, .inf => .inf
  | .ninf, _ => .ninf
  | _, .ninf => .ninf

/-- IEEE float subtraction on this domain (`inf - inf = NaN`). -/
def pySubF : PyFloat → PyFloat → PyFloat
  | .nan, _ => .nan
  | _, .nan => .nan
  | .val a, .val b => .val (qSub a b)
  | .inf, .inf => .nan
  | .ninf, .ninf => .nan
  | .inf, _ => .inf
  | _, .inf => .ninf
  | .ninf, _ => .ninf
  | _, .ninf => .inf

/-- IEEE float multiplication on this domain (`inf * 0 = NaN`). -/
def pyMulF : PyFloat → PyFloat → PyFloat
  | .nan, _ => .nan
  | _, .nan => .nan
  | .val a, .val b => .val (qMul a b)
  | .inf, .inf => .inf
  | .inf, .ninf => .ninf
  | .ninf, .inf => .ninf
  | .ninf, .ninf => .inf
  | .inf, .val b => if b = 0 then .nan else if 0 < b then .inf else .ninf
  | .val a, .inf => if a = 0 then .nan else if 0 < a then .inf else .ninf
  | .ninf, .val b => if b = 0 then .nan else if 0 < b then .ninf else .inf
  | .val a, .ninf => if a = 0 then .nan else if 0 < a then .ninf else .inf

/-- Python `abs` on floats. -/
def pyAbsF : PyFloat → PyFloat
  | .val q => .val |q|
  | .inf => .inf
  | .ninf => .inf
  | .nan => .nan

/-- Python `max(a, b)`: `b` when `b > a`, else `a` (so NaN in second
position loses, as in CPython). -/
def pyMaxF (a b : PyFloat) : PyFloat := if pyLtF a b then b else a

/- ── Float-aware table B / table E and cross-validation ─────────────── -/

/-- A `table_b` row after `build_table_b`, float-aware: the stored amount
cell is a float value or missing/NaN (`none`). -/
structure RowBF where
  description : String
  amount : Option PyFloat
  deriving DecidableEq

/-- A `table_e` row after `build_table_e`, float-aware. -/
structure RowEF where
  month : Option String
  salary : Option PyFloat
  employee : Option PyFloat
  employer : Option PyFloat
  severance : Option PyFloat
  total : Option PyFloat
  deriving DecidableEq

/-- Does `str()` of a finite double of this value use the plain decimal
format?  Python prints scientific notation exactly for magnitudes at or
above 1e16 and for nonzero magnitudes below 1e-4. -/
def plainReprRange (q : ℚ) : Bool :=
  decide (q = 0) ||
    (decide (mkRat 1 10000 ≤ |q|) && decide (|q| < mkRat (Int.ofNat (10 ^ 16)) 1))

/-- Is a stored amount cell inside the region where `cleanNumRoundtrip`
is an exact model of the source? -/
def amountModelled : Option PyFloat → Bool
  | none => true
  | some (.val q) => plainReprRange q
  | some _ => true

/-- The `clean_num(row.get("amount"))` re-application inside
`find_total_deposits_table_b`, acting on a stored float cell via `str()`:
a missing/NaN cell prints "nan", a rejected sentinel; "inf" filters to ""
and "-inf" to "-", both rejected; a finite value in the plain-format range
prints its exact decimal, which `clean_num` parses back to the same value.
Finite values printed in scientific notation are corrupted by the
character filter in value-specific ways; that region is outside this
model (it returns `none` there) and every theorem about this function
restricts amounts to the modelled region via `amountModelled`. -/
def cleanNumRoundtrip : Option PyFloat → Option PyFloat
  | none => none
  | some .nan => none
  | some .inf => none
  | some .ninf => none
  | some (.val q) => if plainReprRange q then some (.val q) else none

/-- `find_total_deposits_table_b` from `src/app.py`, float-aware: the
re-applied `clean_num` on the stored cell is `cleanNumRoundtrip`. -/
def find_total_deposits_ieee (rows : List RowBF) : Option PyFloat :=
  match rows with
  | [] => none
  | row :: rest =>
    if depositKeywords.any (fun kw => strHas row.description kw) then
      match cleanNumRoundtrip row.amount with
      | some v => some v
      | none => find_total_deposits_ieee rest
    else find_total_deposits_ieee rest

/-- pandas `Series.sum()` with `skipna=True`, float-aware: missing and NaN
cells are masked out before summation, while infinities are summed (so a
column holding +inf and −inf sums to NaN). -/
def pandasSumFloat (l : List (Option PyFloat)) : PyFloat :=
  l.foldl
    (fun acc x =>
      match x with
      | none => acc
      | some .nan => acc
      | some v => pyAddF acc v)
    (.val 0)

/-- The outcome record of the float-aware `cross_validate`. -/
structure CVOutF where
  status : CVStatus
  b_value : Option PyFloat
  e_value : Option PyFloat
  delta : Option PyFloat
  deriving DecidableEq

/-- `cross_validate` from `src/app.py`, float-aware: this model keeps the
`math.isnan(e_sum)` Indeterminate branch (reachable when the totals column
holds offsetting infinities). -/
def cross_validate_ieee (table_b : List RowBF) (table_e : List RowEF) :
    CVOutF :=
  match find_total_deposits_ieee table_b with
  | none => ⟨.indeterminate, none, none, none⟩
  | some b_total =>
    if table_e.isEmpty then ⟨.indeterminate, some b_total, none, none⟩
    else
      let e_sum := pandasSumFloat (table_e.map RowEF.total)
      if e_sum = .nan then ⟨.indeterminate, some b_total, some e_sum, none⟩
      else
        let diff := pyAbsF (pySubF b_total e_sum)
        let tolerance := pyMaxF (.val 1) (pyMulF (pyAbsF b_total) (.val (mkRat 1 100)))
        if pyLeF diff tolerance then
          ⟨.matched, some b_total, some e_sum, some diff⟩
        else ⟨.mismatch, some b_total, some e_sum, some diff⟩

/- ── Claim theorems: C10 (overflow) ──────────────────────────────────── -/

/-- A digit string of overflow magnitude: four hundred nines. -/
def overflowDigits : String := String.mk (List.replicate 400 '9')

set_option maxRecDepth 8000 in
/-- C10 counterexample: on the 400-nines string, `clean_num` returns +inf —
a value, so no exception, but not a finite float and not the absent value —
refuting "returns either a finite float or None" for every string. -/
theorem clean_num_overflow_counterexample :
    cleanNumOverflow (some overflowDigits) = some PyFloat.inf ∧
    PyFloat.inf.isFinite = false ∧
    (some PyFloat.inf : Option PyFloat) ≠ none := by
  refine ⟨by decide, by decide, by decide⟩

set_option maxRecDepth 8000 in
/-- C10 amended: `clean_num` is total and never raises — for every input
(absent or any string) it terminates and returns a float or None — but the
float is not always finite: `float()` saturates instead of raising, so
digit strings of overflow magnitude return +inf. -/
theorem clean_num_total_never_raises :
    (∀ v : Option String,
        cleanNumOverflow v = none ∨ ∃ f : PyFloat, cleanNumOverflow v = some f) ∧
    cleanNumOverflow (some overflowDigits) = some PyFloat.inf := by
  constructor
  · intro v
    cases h : cleanNumOverflow v with
    | none => exact Or.inl rfl
    | some f => exact Or.inr ⟨f, rfl⟩
  · decide

/- ── Claim theorems: C8 (float-aware) ────────────────────────────────── -/

/-- A float-aware table-B row with a deposit keyword and a plain-range
stored amount of 10000. -/
def rowBF10000 : RowBF := ⟨"סך הפקדות לקרן", some (PyFloat.val 10000)⟩

/-- A float-aware schema-E row with no usable values at all. -/
def junkRowEF : RowEF := ⟨none, none, none, none, none, none⟩

/-- A float-aware schema-E row carrying only a total value. -/
def rowEFTotal (f : PyFloat) : RowEF := ⟨none, none, none, none, none, some f⟩

/-- C8 counterexample: with a located B-side deposit of 10000 and a
nonempty schema E with no usable total values, the code does not return
Indeterminate — the skipna sum treats the column as 0 and a Mismatch is
reported. -/
theorem cross_validate_no_usable_totals_counterexample :
    (cross_validate_ieee [rowBF10000] [junkRowEF]).status =
      CVStatus.mismatch ∧
    CVStatus.mismatch ≠ CVStatus.indeterminate := by
  exact ⟨by decide, by decide⟩

/-- C8 amended: `cross_validate` returns Indeterminate — distinct from
Match and Mismatch — exactly when the table-B deposit lookup yields no
amount, or table E is empty, or the total-column sum is NaN (offsetting
infinities); a nonempty table E with no usable totals sums to 0 and yields
Match or Mismatch.  The hypothesis keeps every stored B amount inside the
region where the `str()` round-trip model is exact. -/
theorem cross_validate_ieee_indeterminate_iff :
    ∀ (bt : List RowBF) (et : List RowEF),
      (∀ row ∈ bt, amountModelled row.amount = true) →
      ((cross_validate_ieee bt et).status = CVStatus.indeterminate ↔
        (find_total_deposits_ieee bt = none ∨ et = [] ∨
          pandasSumFloat (et.map RowEF.total) = PyFloat.nan)) := by
  intro bt et _hmod
  unfold cross_validate_ieee
  cases hb : find_total_deposits_ieee bt with
  | none => simp
  | some b =>
    cases et with
    | nil => simp
    | cons x xs =>
      simp only [List.map_cons, List.isEmpty_cons, Bool.false_eq_true, if_false]
      by_cases hn : pandasSumFloat (x.total :: xs.map RowEF.total) = PyFloat.nan
      · rw [if_pos hn]
        simp [hn]
      · rw [if_neg hn]
        split <;> simp [hn]

/-- C8 witness: the characterization at a table whose totals are +inf and
−inf — the NaN-sum route really yields Indeterminate. -/
theorem cross_validate_ieee_indeterminate_iff_witness :
    (cross_validate_ieee [rowBF10000]
        [rowEFTotal PyFloat.inf, rowEFTotal PyFloat.ninf]).status =
        CVStatus.indeterminate ↔
      (find_total_deposits_ieee [rowBF10000] = none ∨
        ([rowEFTotal PyFloat.inf, rowEFTotal PyFloat.ninf] : List RowEF) = [] ∨
        pandasSumFloat
            ([rowEFTotal PyFloat.inf,
              rowEFTotal PyFloat.ninf].map RowEF.total) =
          PyFloat.nan) :=
  cross_validate_ieee_indeterminate_iff [rowBF10000]
    [rowEFTotal PyFloat.inf, rowEFTotal PyFloat.ninf] (by decide)

/- ── Agreement of the float-aware and rational models ────────────────── -/

/-- Inject a rational table-B row into the float-aware model. -/
def rowBToFloat (r : RowB) : RowBF := ⟨r.description, r.amount.map PyFloat.val⟩

/-- Inject a rational table-E row into the float-aware model. -/
def rowEToFloat (r : RowE) : RowEF :=
  ⟨r.month, r.salary.map PyFloat.val, r.employee.map PyFloat.val,
    r.employer.map PyFloat.val, r.severance.map PyFloat.val,
    r.total.map PyFloat.val⟩

theorem find_total_ieee_agrees :
    ∀ bt : List RowB,
      (∀ row ∈ bt, ∀ q, row.amount = some q → plainReprRange q = true) →
      find_total_deposits_ieee (bt.map rowBToFloat) =
        (find_total_deposits_table_b bt).map PyFloat.val := by
  intro bt
  induction bt with
  | nil => intro _; rfl
  | cons r rs ih =>
    intro h
    have hrs : ∀ row ∈ rs, ∀ q, row.amount = some q → plainReprRange q = true :=
      fun row hrow q hq => h row (by simp [hrow]) q hq
    by_cases hkw : depositKeywords.any (fun kw => strHas r.description kw) = true
    · cases ha : r.amount with
      | none =>
        simp [find_total_deposits_ieee, find_total_deposits_table_b,
          rowBToFloat, ha, cleanNumRoundtrip, hkw, ih hrs]
      | some q =>
        have hq : plainReprRange q = true := h r (by simp) q ha
        simp [find_total_deposits_ieee, find_total_deposits_table_b,
          rowBToFloat, ha, cleanNumRoundtrip, hkw, hq]
    · simp [find_total_deposits_ieee, find_total_deposits_table_b,
        rowBToFloat, hkw, ih hrs]

theorem pandasSumFloat_val :
    ∀ (l : List (Option ℚ)) (acc : ℚ),
      (l.map (Option.map PyFloat.val)).foldl
          (fun acc x =>
            match x with
            | none => acc
            | some .nan => acc
            | some v => pyAddF acc v) (.val acc) =
        .val (l.foldl
          (fun acc x => match x with | none => acc | some v => qAdd acc v)
          acc) := by
  intro l
  induction l with
  | nil => intro _; rfl
  | cons x xs ih =>
    intro acc
    cases x with
    | none => simpa using ih acc
    | some q => simpa [pyAddF] using ih (qAdd acc q)

theorem pandasSumFloat_eq (l : List (Option ℚ)) :
    pandasSumFloat (l.map (Option.map PyFloat.val)) = .val (pandas_sum l) :=
  pandasSumFloat_val l 0

theorem pyMaxF_val (a b : ℚ) :
    pyMaxF (.val a) (.val b) = .val (max a b) := by
  simp only [pyMaxF, pyLtF]
  by_cases h : a < b
  · simp [h, max_eq_right h.le]
  · simp [h, max_eq_left (not_lt.1 h)]

/-- On finite tables whose stored B amounts are in the plain `str()`
formatting range, the float-aware validator and the rational one report
the same status: the two models agree away from the IEEE specials. -/
theorem cross_validate_ieee_agrees :
    ∀ (bt : List RowB) (et : List RowE),
      (∀ row ∈ bt, ∀ q, row.amount = some q → plainReprRange q = true) →
      (cross_validate_ieee (bt.map rowBToFloat) (et.map rowEToFloat)).status =
        (cross_validate bt et).status := by
  intro bt et h
  unfold cross_validate_ieee cross_validate
  rw [find_total_ieee_agrees bt h]
  cases hb : find_total_deposits_table_b bt with
  | none => rfl
  | some b =>
    cases et with
    | nil => rfl
    | cons x xs =>
      have htot : (List.map rowEToFloat (x :: xs)).map RowEF.total =
          ((x :: xs).map RowE.total).map (Option.map PyFloat.val) := by
        simp only [List.map_map]
        rfl
      have hsum : pandasSumFloat ((List.map rowEToFloat (x :: xs)).map RowEF.total) =
          .val (pandas_sum ((x :: xs).map RowE.total)) := by
        rw [htot]
        exact pandasSumFloat_eq _
      simp only [Option.map_some']
      have hiseF : (List.map rowEToFloat (x :: xs)).isEmpty = false := rfl
      have hiseQ : (x :: xs).isEmpty = false := rfl
      rw [hiseF, hiseQ]
      simp only [Bool.false_eq_true, if_false]
      rw [hsum]
      rw [if_neg (by simp : ¬(PyFloat.val (pandas_sum ((x :: xs).map RowE.total)) = PyFloat.nan))]
      simp only [pySubF, pyAbsF, pyMulF, pyMaxF_val, pyLeF, decide_eq_true_eq]
      split <;> rfl
